import Mathlib

/-!
Verification development for the hstr-rs History View Engine
(`src/hstr/src/app.rs`, `src/hstr/src/ui.rs`, `src/hstr/src/main.rs`).

The Rust code is shallowly embedded: each `Application` / `UserInterface`
method becomes a pure Lean function on an explicit state record.  Machine
integers (`i32`) are modelled as `Int`; the `i32 -> usize` casts performed by
the UI code are modelled by explicit sign guards that agree with the Rust
wrap-around behaviour on every input exercised here (see the individual doc
comments).  The external `regex` crate is modelled by a small syntax checker
(`regexValid`) for pattern compilation and a literal substring matcher for
`is_match`; only the compile-succeeds/compile-fails structure of the crate is
load-bearing for the claims below, and the checker is faithful to the crate on
that structure (escaped metacharacters are always valid atoms, an unbalanced
group such as "print(" is rejected).
-/

/-- The set of characters escaped by `regex::escape`
(`regex-syntax`'s `is_meta_character`). -/
def isMetaChar (c : Char) : Bool :=
  c = '\\' ∨ c = '.' ∨ c = '+' ∨ c = '*' ∨ c = '?' ∨ c = '(' ∨ c = ')' ∨
  c = '|' ∨ c = '[' ∨ c = ']' ∨ c = '{' ∨ c = '}' ∨ c = '^' ∨ c = '$' ∨
  c = '#' ∨ c = '&' ∨ c = '-' ∨ c = '~'

/-- `regex::escape` on a single character: a metacharacter is preceded by a
backslash, any other character is kept as is. -/
def escapeChar (c : Char) : List Char :=
  if isMetaChar c then ['\\', c] else [c]

/-- `regex::escape` over a whole query (modelled on the character list of the
string). -/
def escapeList : List Char → List Char
  | [] => []
  | c :: rest => escapeChar c ++ escapeList rest

/-- Syntax checker modelling `Regex::new` / `RegexBuilder::build` of the
`regex` crate on the constructs relevant to the claims: backslash escapes,
groups `(`/`)` (must balance), character classes `[...]` (must close),
alternation `|`, and the repetition operators `*`, `+`, `?` (which need a
preceding atom).  All other characters are atoms, as in the crate (where a
stray `{` is treated as a literal).  Arguments: remaining input, open-group
depth, inside-character-class flag, and whether a repeatable atom precedes. -/
def regexValidAux : List Char → Nat → Bool → Bool → Bool
  | [], depth, inClass, _ => !inClass && decide (depth = 0)
  | c :: rest, depth, inClass, hasAtom =>
    if c = '\\' then
      match rest with
      | [] => false
      | _ :: rest2 => regexValidAux rest2 depth inClass true
    else if inClass then
      if c = ']' then regexValidAux rest depth false true
      else regexValidAux rest depth true hasAtom
    else if c = '(' then regexValidAux rest (depth + 1) false false
    else if c = ')' then decide (depth ≠ 0) && regexValidAux rest (depth - 1) false true
    else if c = '[' then regexValidAux rest depth true false
    else if c = '|' then regexValidAux rest depth false false
    else if c = '*' ∨ c = '+' ∨ c = '?' then hasAtom && regexValidAux rest depth false true
    else regexValidAux rest depth false true

/-- Whether a pattern string is accepted by the (modelled) regex compiler. -/
def regexValid (pattern : List Char) : Bool :=
  regexValidAux pattern 0 false false

/-- Inverse of escaping: drops the backslash in front of an escaped
character.  Used only by the modelled matcher below. -/
def unescapeList : List Char → List Char
  | [] => []
  | '\\' :: c :: rest => c :: unescapeList rest
  | c :: rest => c :: unescapeList rest

/-- Decidable "needle occurs as a contiguous substring of hay". -/
def containsSeq (needle : List Char) : List Char → Bool
  | [] => needle.isEmpty
  | c :: rest => needle.isPrefixOf (c :: rest) || containsSeq needle rest

/-- ASCII case folding used when the matcher is case-insensitive. -/
def foldCase (ci : Bool) (l : List Char) : List Char :=
  if ci then l.map Char.toLower else l

/-- A compiled matcher (the `Regex` value built by
`RegexBuilder::new(pattern).case_insensitive(..).build()`): the pattern text
together with the case-insensitivity flag. -/
structure Matcher where
  pattern : List Char
  caseInsensitive : Bool
deriving DecidableEq

/-- Modelled `Regex::is_match`, exact on the literal fragment of the crate:
an escaped pattern `escape(q)` matches a haystack iff `q` occurs as a
(case-folded, when insensitive) substring.  The claims settled here use the
matcher only as an opaque predicate, so this restriction is not load-bearing.
-/
def Matcher.is_match (m : Matcher) (s : String) : Bool :=
  containsSeq (foldCase m.caseInsensitive (unescapeList m.pattern))
    (foldCase m.caseInsensitive s.data)

/-- `View` from `src/hstr/src/app.rs` (`Sorted = 0, Favorites = 1, All = 2`).
-/
inductive View where
  | Sorted
  | Favorites
  | All
deriving DecidableEq

/-- `View::iter()` (strum's `EnumIter`, declaration order). -/
def View.iter : List View := [View.Sorted, View.Favorites, View.All]

/-- The `Application` struct of `src/hstr/src/app.rs`.  In Rust `commands`
and `to_restore` are `Option<HashMap<View, Vec<String>>>`, `None` only before
`load_history` runs and unwrapped (panicking) by every method modelled here;
we model the post-load states, where both tables are present, as total maps
from `View`.  The `shell` field only selects file paths in the external I/O
layer and is dropped. -/
structure Application where
  case_sensitivity : Bool
  commands : View → List String
  raw_history : List String
  regex_mode : Bool
  search_string : String
  to_restore : View → List String
  view : View

/-- `Application::restore`: copy the load-time snapshot back over the view
table. -/
def Application.restore (app : Application) : Application :=
  { app with commands := app.to_restore }

/-- `Application::create_search_regex`: in regex mode the raw query is the
pattern, otherwise the escaped query is; the builder is case-insensitive
exactly when `case_sensitivity` is off, and compilation failure (`.ok()` on an
`Err`) is `none`. -/
def Application.create_search_regex (app : Application) : Option Matcher :=
  let pattern :=
    if app.regex_mode then app.search_string.data
    else escapeList app.search_string.data
  if regexValid pattern then
    some { pattern := pattern, caseInsensitive := !app.case_sensitivity }
  else none

/-- `Application::search`: on compile failure return with the state
untouched, otherwise retain in the active view exactly the entries the
matcher accepts. -/
def Application.search (app : Application) : Application :=
  match app.create_search_regex with
  | none => app
  | some r =>
    { app with
      commands := fun v =>
        if v = app.view then (app.commands v).filter (fun x => r.is_match x)
        else app.commands v }

/-- `Application::add_or_rm_fav`: append the command to the Favorites
sequence when absent, otherwise retain everything different from it. -/
def Application.add_or_rm_fav (app : Application) (command : String) : Application :=
  let favorites := app.commands View.Favorites
  if !favorites.contains command then
    { app with
      commands := fun v =>
        if v = View.Favorites then favorites ++ [command] else app.commands v }
  else
    { app with
      commands := fun v =>
        if v = View.Favorites then favorites.filter (fun x => x != command)
        else app.commands v }

/-- `Application::delete_from_history`: for every `View` variant retain the
entries different from `command`, then do the same on `raw_history`. -/
def Application.delete_from_history (app : Application) (command : String) : Application :=
  { app with
    commands := fun v => (app.commands v).filter (fun x => x != command)
    raw_history := app.raw_history.filter (fun x => x != command) }

/-- Rust `String::pop`: remove the last character of the search string. -/
def stringPop (s : String) : String := ⟨s.data.dropLast⟩

/-- The `KEY_BACKSPACE` arm of the event loop in `src/hstr/src/main.rs`:
`search_string.pop()`, then `restore()`, then `search()` (the `nc::clear()`
and redraw between them are external rendering). -/
def handleBackspace (app : Application) : Application :=
  Application.search
    (Application.restore { app with search_string := stringPop app.search_string })

/-- `<[T]>::chunks(k)` with explicit fuel (the fuel is always instantiated
with the list length, which suffices since each step consumes at least one
element when `k ≥ 1`); structural recursion keeps the definition
kernel-reducible. -/
def chunksFuel (k : Nat) : Nat → List String → List (List String)
  | _, [] => []
  | 0, _ :: _ => []
  | fuel + 1, a :: l => (a :: l.take (k - 1)) :: chunksFuel k fuel (l.drop (k - 1))

/-- Rust `commands.chunks(k)`: consecutive chunks of `k` entries, the last
possibly shorter; an empty slice yields no chunks.  (`chunks(0)` panics in
Rust; the `k = 0` guard is never hit because the UI always passes
`nc::LINES() - 3 ≥ 1`.) -/
def chunksList (k : Nat) (l : List String) : List (List String) :=
  if k = 0 then [] else chunksFuel k l.length l

/-- `UserInterface::total_pages`:
`commands.chunks(nc::LINES() as usize - 3).len() as i32`.  The chunk size
`k` stands for `nc::LINES() as usize - 3` throughout. -/
def totalPages (k : Nat) (commands : List String) : Int :=
  ((chunksList k commands).length : Int)

/-- The `Page` struct of `src/hstr/src/ui.rs` (1-based page number). -/
structure Page where
  value : Int
deriving DecidableEq

/-- `Page::contents`: `commands.chunks(k).nth(self.value as usize - 1)`,
defaulting to the empty vector.  For `value ≥ 1` the index is
`(value - 1).toNat`, exactly the Rust cast; for `value ≤ 0` the Rust
`as usize` cast followed by the wrapping `- 1` produces an index far beyond
any chunk count, so `nth` returns `None` and the result is `[]`, which the
guard reproduces. -/
def Page.contents (p : Page) (k : Nat) (commands : List String) : List String :=
  if p.value ≤ 0 then []
  else ((chunksList k commands).get? (p.value - 1).toNat).getD []

/-- `Page::size`: number of entries on the current page, as `i32`. -/
def Page.size (p : Page) (k : Nat) (commands : List String) : Int :=
  ((p.contents k commands).length : Int)

/-- `Page::selected`: `self.contents(commands).get(index as usize)`.
The Rust method then calls `.unwrap()` on the option, so a `none` result
here means the Rust code panics.  A negative `index` casts to a huge
`usize`, hence out of bounds and likewise `None` in Rust. -/
def Page.selected (p : Page) (k : Nat) (commands : List String) (index : Int) :
    Option String :=
  if index < 0 then none else (p.contents k commands).get? index.toNat

/-- The `UserInterface` struct: current page and selection cursor. -/
structure UserInterface where
  page : Page
  selected : Int
deriving DecidableEq

/-- `UserInterface::turn_page`: wrap `page.value - 1 + direction` into
`[0, total_pages)` with `i32::checked_rem_euclid` (which is `None` exactly
when `total_pages = 0`, i.e. no commands) and re-base to 1. -/
def UserInterface.turn_page (ui : UserInterface) (k : Nat) (commands : List String)
    (direction : Int) : UserInterface :=
  let next := ui.page.value - 1 + direction
  let pages := totalPages k commands
  { ui with
    page := { value := if pages = 0 then 1 else next % pages + 1 } }

/-- `UserInterface::move_selected`: add the direction to the cursor first;
when the current page is non-empty wrap the cursor with
`checked_rem_euclid` and turn the page on wraparound (forward keeps the
cursor at 0, backward places it on the last row of the new page).  When the
page is empty (`page_size = 0`) `checked_rem_euclid` is `None` and the
already incremented cursor is kept. -/
def UserInterface.move_selected (ui : UserInterface) (k : Nat)
    (commands : List String) (direction : Int) : UserInterface :=
  let page_size := ui.page.size k commands
  let sel := ui.selected + direction
  if page_size = 0 then { ui with selected := sel }
  else
    let w := sel % page_size
    if direction = 1 ∧ w = 0 then
      UserInterface.turn_page { ui with selected := w } k commands 1
    else if direction = -1 ∧ w = page_size - 1 then
      let ui2 := UserInterface.turn_page { ui with selected := w } k commands (-1)
      { ui2 with selected := ui2.page.size k commands - 1 }
    else { ui with selected := w }

/-- `UserInterface::retain_selected`: pull the cursor back one row when it
sits on the last row of the current page (called before a removal). -/
def UserInterface.retain_selected (ui : UserInterface) (k : Nat)
    (commands : List String) : UserInterface :=
  let page_size := ui.page.size k commands
  if ui.selected = page_size - 1 then { ui with selected := ui.selected - 1 }
  else ui

/-- The pagination reset performed by the event loop in
`src/hstr/src/main.rs` on a view change (`CTRL_SLASH` arm) and on a query
change (printable-character arm): `user_interface.selected = 0;
user_interface.page.value = 1;`. -/
def resetPagination (ui : UserInterface) : UserInterface :=
  { ui with page := { value := 1 }, selected := 0 }

/-- The pagination/selection invariant claimed by the specification:
1-based page number within range, non-negative cursor, and (on a non-empty
view) cursor strictly inside the current page. -/
def pagInvariant (k : Nat) (commands : List String) (ui : UserInterface) : Prop :=
  1 ≤ ui.page.value ∧ ui.page.value ≤ totalPages k commands ∧
  0 ≤ ui.selected ∧ ui.selected < ui.page.size k commands

instance (k : Nat) (commands : List String) (ui : UserInterface) :
    Decidable (pagInvariant k commands ui) := by
  unfold pagInvariant; infer_instance

theorem regexValidAux_cons_backslash (c : Char) (rest : List Char) (d : Nat)
    (b a : Bool) :
    regexValidAux ('\\' :: c :: rest) d b a = regexValidAux rest d b true := by
  simp [regexValidAux]

theorem regexValidAux_cons_plain (c : Char) (rest : List Char) (d : Nat)
    (a : Bool) (hm : isMetaChar c = false) :
    regexValidAux (c :: rest) d false a = regexValidAux rest d false true := by
  have hm' : ¬(c = '\\' ∨ c = '.' ∨ c = '+' ∨ c = '*' ∨ c = '?' ∨ c = '(' ∨
      c = ')' ∨ c = '|' ∨ c = '[' ∨ c = ']' ∨ c = '{' ∨ c = '}' ∨ c = '^' ∨
      c = '$' ∨ c = '#' ∨ c = '&' ∨ c = '-' ∨ c = '~') := by
    intro h
    rw [isMetaChar] at hm
    simp only [decide_eq_false_iff_not] at hm
    exact hm h
  push_neg at hm'
  obtain ⟨h1, h2, h3, h4, h5, h6, h7, h8, h9, h10, h11, h12, h13, h14,
    h15, h16, h17, h18⟩ := hm'
  rw [regexValidAux.eq_def]
  simp only []
  rw [if_neg h1]
  simp [h3, h4, h5, h6, h7, h8, h9]

theorem regexValidAux_escape (l : List Char) :
    ∀ (rest : List Char) (d : Nat) (a : Bool),
      regexValidAux (escapeList l ++ rest) d false a =
        regexValidAux rest d false (if l.isEmpty then a else true) := by
  induction l with
  | nil => intro rest d a; simp [escapeList]
  | cons c l ih =>
    intro rest d a
    by_cases hm : isMetaChar c
    · have he : escapeChar c = ['\\', c] := by rw [escapeChar, if_pos hm]
      simp only [escapeList, he, List.cons_append, List.nil_append]
      rw [regexValidAux_cons_backslash, ih]
      cases l <;> simp
    · have he : escapeChar c = [c] := by
        rw [escapeChar, if_neg (by simp [hm])]
      simp only [escapeList, he, List.cons_append, List.nil_append]
      rw [regexValidAux_cons_plain c _ _ _ (by simp [hm]), ih]
      cases l <;> simp

theorem regexValid_escape (l : List Char) : regexValid (escapeList l) = true := by
  have h := regexValidAux_escape l [] 0 false
  rw [List.append_nil] at h
  rw [regexValid, h]
  cases l <;> simp [regexValidAux]

theorem chunksFuel_congr (k : Nat) :
    ∀ (f1 f2 : Nat) (l : List String), l.length ≤ f1 → l.length ≤ f2 →
      chunksFuel k f1 l = chunksFuel k f2 l := by
  intro f1
  induction f1 with
  | zero =>
    intro f2 l h1 h2
    cases l with
    | nil => cases f2 <;> simp [chunksFuel]
    | cons a t => simp at h1
  | succ f ih =>
    intro f2 l h1 h2
    cases l with
    | nil => cases f2 <;> simp [chunksFuel]
    | cons a t =>
      cases f2 with
      | zero => simp at h2
      | succ g =>
        simp only [chunksFuel]
        congr 1
        have hd : (t.drop (k - 1)).length = t.length - (k - 1) := List.length_drop _ _
        apply ih
        · simp at h1; omega
        · simp at h2; omega

theorem chunksList_nil (k : Nat) : chunksList k [] = [] := by
  simp [chunksList, chunksFuel]

theorem chunksList_cons (k : Nat) (hk : k ≠ 0) (a : String) (l : List String) :
    chunksList k (a :: l) =
      (a :: l.take (k - 1)) :: chunksList k (l.drop (k - 1)) := by
  rw [chunksList, if_neg hk, chunksList, if_neg hk]
  simp only [List.length_cons, chunksFuel]
  congr 1
  apply chunksFuel_congr
  · have hd : (l.drop (k - 1)).length = l.length - (k - 1) := List.length_drop _ _
    omega
  · exact le_refl _

theorem chunksFuel_mem_ne_nil (k : Nat) :
    ∀ (fuel : Nat) (l : List String) (c : List String),
      c ∈ chunksFuel k fuel l → c ≠ [] := by
  intro fuel
  induction fuel with
  | zero => intro l c hc; cases l <;> simp [chunksFuel] at hc
  | succ f ih =>
    intro l c hc
    cases l with
    | nil => simp [chunksFuel] at hc
    | cons a t =>
      simp only [chunksFuel, List.mem_cons] at hc
      rcases hc with h | h
      · subst h; simp
      · exact ih _ _ h

theorem chunksList_mem_ne_nil (k : Nat) (l c : List String)
    (hc : c ∈ chunksList k l) : c ≠ [] := by
  rw [chunksList] at hc
  by_cases hk : k = 0
  · rw [if_pos hk] at hc; simp at hc
  · rw [if_neg hk] at hc; exact chunksFuel_mem_ne_nil k _ _ _ hc

theorem chunksFuel_length (k : Nat) (hk : 0 < k) :
    ∀ (fuel : Nat) (l : List String), l.length ≤ fuel →
      (chunksFuel k fuel l).length =
        if l = [] then 0 else (l.length - 1) / k + 1 := by
  intro fuel
  induction fuel with
  | zero =>
    intro l hl
    cases l with
    | nil => simp [chunksFuel]
    | cons a t => simp at hl
  | succ f ih =>
    intro l hl
    cases l with
    | nil => simp [chunksFuel]
    | cons a t =>
      simp only [chunksFuel, List.length_cons, if_neg (List.cons_ne_nil a t)]
      rw [ih (t.drop (k - 1))
        (by have := List.length_drop (k - 1) t; simp at hl ⊢; omega)]
      have hd : (t.drop (k - 1)).length = t.length - (k - 1) :=
        List.length_drop _ _
      by_cases ht : t.drop (k - 1) = []
      · rw [if_pos ht]
        have htl : t.length ≤ k - 1 := by
          rw [List.drop_eq_nil_iff] at ht; exact ht
        have : (t.length + 1 - 1) / k = 0 := Nat.div_eq_of_lt (by omega)
        omega
      · rw [if_neg ht]
        have htk : ¬ t.length ≤ k - 1 := by
          intro h; exact ht (List.drop_eq_nil_iff.mpr h)
        have hk2 : k ≤ t.length := by omega
        have hsub : (t.drop (k - 1)).length - 1 = t.length - k := by omega
        rw [hsub]
        have hdiv : t.length / k = (t.length - k) / k + 1 :=
          Nat.div_eq_sub_div hk hk2
        have : t.length + 1 - 1 = t.length := by omega
        rw [this]
        omega

theorem chunksList_length (k : Nat) (hk : 0 < k) (l : List String) :
    (chunksList k l).length = if l = [] then 0 else (l.length - 1) / k + 1 := by
  rw [chunksList, if_neg (by omega)]
  exact chunksFuel_length k hk l.length l (le_refl _)

theorem totalPages_nil (k : Nat) : totalPages k [] = 0 := by
  simp [totalPages, chunksList_nil]

theorem totalPages_pos (k : Nat) (hk : 0 < k) (l : List String) (hl : l ≠ []) :
    1 ≤ totalPages k l := by
  rw [totalPages, chunksList_length k hk, if_neg hl]
  exact_mod_cast Nat.succ_le_of_lt (Nat.succ_pos _)

theorem turn_page_unfold (ui : UserInterface) (k : Nat) (cmds : List String)
    (d : Int) :
    ui.turn_page k cmds d =
      { ui with
        page :=
          { value :=
              if totalPages k cmds = 0 then 1
              else (ui.page.value - 1 + d) % totalPages k cmds + 1 } } := rfl

theorem move_selected_unfold (ui : UserInterface) (k : Nat)
    (cmds : List String) (d : Int) :
    ui.move_selected k cmds d =
      (if ui.page.size k cmds = 0 then { ui with selected := ui.selected + d }
       else if d = 1 ∧ (ui.selected + d) % ui.page.size k cmds = 0 then
         UserInterface.turn_page
           { ui with selected := (ui.selected + d) % ui.page.size k cmds }
           k cmds 1
       else if d = -1 ∧ (ui.selected + d) % ui.page.size k cmds =
           ui.page.size k cmds - 1 then
         { UserInterface.turn_page
             { ui with selected := (ui.selected + d) % ui.page.size k cmds }
             k cmds (-1) with
           selected :=
             (UserInterface.turn_page
               { ui with selected := (ui.selected + d) % ui.page.size k cmds }
               k cmds (-1)).page.size k cmds - 1 }
       else { ui with selected := (ui.selected + d) % ui.page.size k cmds }) :=
  rfl

theorem retain_selected_unfold (ui : UserInterface) (k : Nat)
    (cmds : List String) :
    ui.retain_selected k cmds =
      if ui.selected = ui.page.size k cmds - 1 then
        { ui with selected := ui.selected - 1 }
      else ui := rfl

theorem page_size_pos (k : Nat) (cmds : List String) (p : Page)
    (h1 : 1 ≤ p.value) (h2 : p.value ≤ totalPages k cmds) :
    0 < p.size k cmds := by
  rw [Page.size, Page.contents, if_neg (by omega)]
  have hidx : (p.value - 1).toNat < (chunksList k cmds).length := by
    rw [totalPages] at h2; omega
  rw [List.get?_eq_get hidx]
  simp only [Option.getD_some]
  have hmem : (chunksList k cmds).get ⟨(p.value - 1).toNat, hidx⟩ ∈
      chunksList k cmds := List.get_mem _ _ _
  have hne := chunksList_mem_ne_nil k cmds _ hmem
  have hpos : 0 < ((chunksList k cmds).get ⟨(p.value - 1).toNat, hidx⟩).length :=
    List.length_pos.mpr hne
  exact_mod_cast hpos

theorem turn_page_bounds (ui : UserInterface) (k : Nat) (cmds : List String)
    (d : Int) (hk : 0 < k) (hne : cmds ≠ []) :
    1 ≤ (ui.turn_page k cmds d).page.value ∧
      (ui.turn_page k cmds d).page.value ≤ totalPages k cmds ∧
      (ui.turn_page k cmds d).selected = ui.selected := by
  have hp := totalPages_pos k hk cmds hne
  simp only [UserInterface.turn_page]
  rw [if_neg (by omega)]
  have h0 := Int.emod_nonneg (ui.page.value - 1 + d)
    (show totalPages k cmds ≠ 0 by omega)
  have h1 := Int.emod_lt_of_pos (ui.page.value - 1 + d)
    (show 0 < totalPages k cmds by omega)
  refine ⟨by omega, by omega, by trivial⟩

/-- C10: in literal mode (`regex_mode` off) every query is escaped before
compilation, so `create_search_regex` always succeeds, for every query
string (including ones that are invalid as regexes, such as "print("). -/
theorem literal_mode_compile_never_fails (app : Application)
    (h : app.regex_mode = false) :
    (Application.create_search_regex app).isSome = true := by
  rw [Application.create_search_regex]
  simp [h, regexValid_escape]

/-- Witness for C10 at the query "print(" from the repository's own test. -/
theorem literal_mode_compile_never_fails_witness :
    ({ case_sensitivity := false, commands := fun _ => [], raw_history := [],
       regex_mode := false, search_string := "print(", to_restore := fun _ => [],
       view := View.Sorted } : Application).regex_mode = false ∧
    (Application.create_search_regex
      { case_sensitivity := false, commands := fun _ => [], raw_history := [],
        regex_mode := false, search_string := "print(", to_restore := fun _ => [],
        view := View.Sorted }).isSome = true :=
  ⟨rfl, literal_mode_compile_never_fails _ rfl⟩

/-- C2: in regex mode, when the query is not a valid pattern, `search`
returns the whole application state unchanged (every view's sequence
included) instead of panicking. -/
theorem invalid_regex_search_is_noop (app : Application)
    (h1 : app.regex_mode = true)
    (h2 : regexValid app.search_string.data = false) :
    Application.search app = app := by
  have hc : app.create_search_regex = none := by
    rw [Application.create_search_regex]
    simp [h1, h2]
  rw [Application.search, hc]

/-- Witness for C2 at the unbalanced query "print(" in regex mode. -/
theorem invalid_regex_search_is_noop_witness :
    ({ case_sensitivity := false, commands := fun _ => ["print(x)"],
       raw_history := [], regex_mode := true, search_string := "print(",
       to_restore := fun _ => [], view := View.All } : Application).regex_mode
        = true ∧
    regexValid ("print(" : String).data = false ∧
    Application.search
      { case_sensitivity := false, commands := fun _ => ["print(x)"],
        raw_history := [], regex_mode := true, search_string := "print(",
        to_restore := fun _ => [], view := View.All } =
      { case_sensitivity := false, commands := fun _ => ["print(x)"],
        raw_history := [], regex_mode := true, search_string := "print(",
        to_restore := fun _ => [], view := View.All } :=
  ⟨rfl, by decide, invalid_regex_search_is_noop _ rfl (by decide)⟩

/-- C3: `delete_from_history e` removes every occurrence of `e` from
`raw_history` and from each of the three views, keeping the other entries
(and their relative order: each result is a sublist of the original). -/
theorem delete_from_history_removes_everywhere (app : Application) (e : String) :
    (app.delete_from_history e).raw_history =
        app.raw_history.filter (fun x => x != e) ∧
    (∀ v : View, (app.delete_from_history e).commands v =
        (app.commands v).filter (fun x => x != e)) ∧
    e ∉ (app.delete_from_history e).raw_history ∧
    (∀ v : View, e ∉ (app.delete_from_history e).commands v) ∧
    List.Sublist (app.delete_from_history e).raw_history app.raw_history ∧
    (∀ v : View, List.Sublist ((app.delete_from_history e).commands v)
        (app.commands v)) := by
  refine ⟨rfl, fun v => rfl, ?_, fun v => ?_, ?_, fun v => ?_⟩
  · simp [Application.delete_from_history, List.mem_filter]
  · simp [Application.delete_from_history, List.mem_filter]
  · exact List.filter_sublist _
  · exact List.filter_sublist _

/-- C9: toggling an entry's favorite status twice restores its Favorites
membership, whatever it was. -/
theorem add_or_rm_fav_round_trip (app : Application) (e : String) :
    (e ∈ ((app.add_or_rm_fav e).add_or_rm_fav e).commands View.Favorites ↔
      e ∈ app.commands View.Favorites) := by
  by_cases h : e ∈ app.commands View.Favorites
  · simp [Application.add_or_rm_fav, List.elem_iff, List.mem_filter, h]
  · simp [Application.add_or_rm_fav, List.elem_iff, List.mem_filter, h]

/-- C1: the `KEY_BACKSPACE` arm pops the last query character, restores the
view table from the load-time snapshot, and re-runs the search, so whenever
the shorter query compiles the active view ends up exactly as the snapshot
sequence filtered by the shorter query's matcher. -/
theorem backspace_restores_then_refilters (app : Application) (m : Matcher)
    (h : Application.create_search_regex
        { app with search_string := stringPop app.search_string } = some m) :
    (handleBackspace app).commands app.view =
      (app.to_restore app.view).filter (fun x => m.is_match x) := by
  rw [handleBackspace]
  have happ : Application.restore
      { app with search_string := stringPop app.search_string } =
      { app with search_string := stringPop app.search_string,
                 commands := app.to_restore } := rfl
  rw [happ]
  have hc : Application.create_search_regex
      { app with search_string := stringPop app.search_string,
                 commands := app.to_restore } = some m := h
  rw [Application.search, hc]
  simp

/-- Witness for C1: query "ab" shrinks to "a"; the snapshot Sorted view
["ab", "b", "ca"] re-filters to ["ab", "ca"] even though the currently
displayed (narrowed) view was ["ab"]. -/
theorem backspace_restores_then_refilters_witness :
    Application.create_search_regex
      { case_sensitivity := false, commands := fun _ => ["ab"],
        raw_history := [], regex_mode := false,
        search_string := stringPop "ab",
        to_restore := fun _ => ["ab", "b", "ca"], view := View.Sorted } =
      some { pattern := ['a'], caseInsensitive := true } ∧
    (handleBackspace
      { case_sensitivity := false, commands := fun _ => ["ab"],
        raw_history := [], regex_mode := false, search_string := "ab",
        to_restore := fun _ => ["ab", "b", "ca"],
        view := View.Sorted }).commands View.Sorted = ["ab", "ca"] := by
  refine ⟨by decide, ?_⟩
  have h := backspace_restores_then_refilters
    { case_sensitivity := false, commands := fun _ => ["ab"],
      raw_history := [], regex_mode := false, search_string := "ab",
      to_restore := fun _ => ["ab", "b", "ca"], view := View.Sorted }
    { pattern := ['a'], caseInsensitive := true } (by decide)
  rw [h]
  decide

/-- C4: on an empty page `Page::contents` is `[]` and `get(0)` yields no
entry, so the Rust `unwrap()` inside `Page::selected` panics (the `none`
below) instead of handing an empty option to the caller; on a non-empty
page the entry at the given index is returned. -/
theorem page_selected_panics_on_empty_page :
    Page.selected { value := 1 } 7 ([] : List String) 0 = none ∧
    Page.selected { value := 1 } 7 ["cat spam", "ls -la"] 1 = some "ls -la" := by
  constructor <;> decide

/-- C7 counterexample: with no commands the code's `total_pages` is 0, not
1 as the claim states (`turn_page` still lands on page 1 only because
`checked_rem_euclid` returns `None` for the zero divisor). -/
theorem total_pages_of_empty_is_zero :
    totalPages 7 ([] : List String) = 0 ∧
    totalPages 7 ([] : List String) ≠ 1 := by
  constructor <;> decide

/-- C7 (amended): with no commands `total_pages` is 0 and `turn_page`
resets the page number to 1 through the `None` branch of
`checked_rem_euclid` (no division failure); with commands present,
`total_pages` equals `max(1, ceil(N / page_size))` and `turn_page` wraps
the 1-based page number inside `[1, total_pages]` via the Euclidean
remainder. -/
theorem turn_page_wraps_euclid (k : Nat) (cmds : List String)
    (ui : UserInterface) (d : Int) (hk : 0 < k) :
    (cmds = [] → totalPages k cmds = 0 ∧
      (ui.turn_page k cmds d).page.value = 1) ∧
    (cmds ≠ [] →
      totalPages k cmds = ((max 1 ((cmds.length + k - 1) / k) : Nat) : Int) ∧
      (ui.turn_page k cmds d).page.value =
        (ui.page.value - 1 + d) % totalPages k cmds + 1 ∧
      1 ≤ (ui.turn_page k cmds d).page.value ∧
      (ui.turn_page k cmds d).page.value ≤ totalPages k cmds) := by
  constructor
  · intro h
    subst h
    refine ⟨totalPages_nil k, ?_⟩
    simp [UserInterface.turn_page, totalPages_nil]
  · intro h
    have hp := totalPages_pos k hk cmds h
    have hb := turn_page_bounds ui k cmds d hk h
    refine ⟨?_, ?_, hb.1, hb.2.1⟩
    · rw [totalPages, chunksList_length k hk, if_neg h]
      have hn : 0 < cmds.length := List.length_pos.mpr h
      have hnat : (cmds.length - 1) / k + 1 =
          max 1 ((cmds.length + k - 1) / k) := by
        have he : cmds.length + k - 1 = (cmds.length - 1) + k := by omega
        rw [he, Nat.add_div_right _ hk]
        exact (Nat.max_eq_right (Nat.succ_le_succ (Nat.zero_le _))).symm
      exact_mod_cast hnat
    · simp only [UserInterface.turn_page]
      rw [if_neg (by omega)]

/-- Witness for C7 (amended) at `N = 3`, `page_size = 2`: two pages, and
turning forward from page 2 wraps to page 1. -/
theorem turn_page_wraps_euclid_witness :
    totalPages 2 ["a", "b", "c"] = ((max 1 ((3 + 2 - 1) / 2) : Nat) : Int) ∧
    (UserInterface.turn_page { page := { value := 2 }, selected := 0 } 2
        ["a", "b", "c"] 1).page.value = 1 := by
  have h := (turn_page_wraps_euclid 2 ["a", "b", "c"]
    { page := { value := 2 }, selected := 0 } 1 (by decide)).2 (by decide)
  refine ⟨h.1, ?_⟩
  rw [h.2.1]
  decide

/-- C8 counterexample: on an empty page `move_selected` is not a no-op:
the cursor was already incremented before the wraparound check, so it
moves from 0 to 1 (the page number alone stays put). -/
theorem move_selected_empty_page_not_noop :
    (UserInterface.move_selected { page := { value := 1 }, selected := 0 } 7
        ([] : List String) 1).selected = 1 ∧
    UserInterface.move_selected { page := { value := 1 }, selected := 0 } 7
        ([] : List String) 1 ≠ { page := { value := 1 }, selected := 0 } := by
  constructor <;> decide

/-- C8 (amended): on an empty page (`page_size = 0`) `move_selected`
leaves the page number unchanged but adds the direction to
`selected_index` (the increment happens before `checked_rem_euclid`
returns `None` and skips the rest). -/
theorem move_selected_empty_page_shifts_cursor (ui : UserInterface) (k : Nat)
    (cmds : List String) (d : Int) (h : ui.page.size k cmds = 0) :
    (ui.move_selected k cmds d).page = ui.page ∧
    (ui.move_selected k cmds d).selected = ui.selected + d := by
  simp only [UserInterface.move_selected]
  rw [if_pos h]
  exact ⟨rfl, rfl⟩

/-- Witness for C8 (amended): empty command list, cursor 5, moving up. -/
theorem move_selected_empty_page_shifts_cursor_witness :
    Page.size { value := 1 } 7 ([] : List String) = 0 ∧
    (UserInterface.move_selected { page := { value := 1 }, selected := 5 } 7
        ([] : List String) (-1)).page = { value := 1 } ∧
    (UserInterface.move_selected { page := { value := 1 }, selected := 5 } 7
        ([] : List String) (-1)).selected = 5 + -1 := by
  have h := move_selected_empty_page_shifts_cursor
    { page := { value := 1 }, selected := 5 } 7 ([] : List String) (-1)
    (by decide)
  exact ⟨by decide, h.1, h.2⟩



/-- C6: on a non-empty page of size `S`, moving down from the last row
(`selected = S - 1`) wraps the cursor to 0 and advances the page via
`turn_page(+1)` (which wraps to page 1 from the last page); moving up from
row 0 turns the page backwards via `turn_page(-1)` and places the cursor
on the last row of the new page. -/
theorem move_selected_wraps_to_adjacent_page (ui : UserInterface) (k : Nat)
    (cmds : List String) (hS : 0 < ui.page.size k cmds) :
    (ui.selected = ui.page.size k cmds - 1 →
      (ui.move_selected k cmds 1).selected = 0 ∧
      (ui.move_selected k cmds 1).page = (ui.turn_page k cmds 1).page) ∧
    (ui.selected = 0 →
      (ui.move_selected k cmds (-1)).page = (ui.turn_page k cmds (-1)).page ∧
      (ui.move_selected k cmds (-1)).selected =
        Page.size (ui.turn_page k cmds (-1)).page k cmds - 1) := by
  have hS0 : ui.page.size k cmds ≠ 0 := by omega
  constructor
  · intro hsel
    have hw : (ui.selected + 1) % ui.page.size k cmds = 0 := by
      rw [hsel]
      have he : ui.page.size k cmds - 1 + 1 = ui.page.size k cmds := by omega
      rw [he, Int.emod_self]
    rw [move_selected_unfold, if_neg hS0, if_pos ⟨rfl, hw⟩]
    exact ⟨hw, rfl⟩
  · intro hsel
    have hw : (ui.selected + -1) % ui.page.size k cmds =
        ui.page.size k cmds - 1 := by
      rw [hsel]
      have h1 : ((0 + -1 : Int) + ui.page.size k cmds * 1) %
          ui.page.size k cmds = (0 + -1) % ui.page.size k cmds :=
        Int.add_mul_emod_self_left (0 + -1) (ui.page.size k cmds) 1
      have h2 : ((0 + -1 : Int) + ui.page.size k cmds * 1) =
          ui.page.size k cmds - 1 := by ring
      rw [h2] at h1
      rw [← h1]
      exact Int.emod_eq_of_lt (by omega) (by omega)
    rw [move_selected_unfold, if_neg hS0,
      if_neg (by rintro ⟨hd, -⟩; norm_num at hd), if_pos ⟨rfl, hw⟩]
    exact ⟨rfl, rfl⟩

/-- Witness for C6 with pages of size 1 (every row is both first and last
row): on page 2 of ["a", "b", "c"] both wrap directions are exercised. -/
theorem move_selected_wraps_to_adjacent_page_witness :
    0 < Page.size { value := 2 } 1 ["a", "b", "c"] ∧
    (UserInterface.move_selected { page := { value := 2 }, selected := 0 }
        1 ["a", "b", "c"] 1).selected = 0 ∧
    (UserInterface.move_selected { page := { value := 2 }, selected := 0 }
        1 ["a", "b", "c"] 1).page =
      (UserInterface.turn_page { page := { value := 2 }, selected := 0 }
        1 ["a", "b", "c"] 1).page ∧
    (UserInterface.move_selected { page := { value := 2 }, selected := 0 }
        1 ["a", "b", "c"] (-1)).page =
      (UserInterface.turn_page { page := { value := 2 }, selected := 0 }
        1 ["a", "b", "c"] (-1)).page ∧
    (UserInterface.move_selected { page := { value := 2 }, selected := 0 }
        1 ["a", "b", "c"] (-1)).selected =
      Page.size (UserInterface.turn_page
        { page := { value := 2 }, selected := 0 }
        1 ["a", "b", "c"] (-1)).page 1 ["a", "b", "c"] - 1 := by
  have h := move_selected_wraps_to_adjacent_page
    { page := { value := 2 }, selected := 0 } 1 ["a", "b", "c"] (by decide)
  exact ⟨by decide, (h.1 (by decide)).1, (h.1 (by decide)).2,
    (h.2 rfl).1, (h.2 rfl).2⟩

/-- C5 counterexample, two operations of the claim refuted at concrete
valid states.  First, `turn_page`: from a state satisfying the claimed
invariant (8 entries, page size 7, page 1, cursor on row 6), a single
`turn_page(+1)` -- exactly what the PageDown key does -- lands on the
one-entry page 2 while leaving the cursor at 6, so the cursor is no longer
inside the current page.  Second, `retain_selected`: from the valid state
(one entry, page 1, cursor 0) the cursor sits on the last row, so
`retain_selected` decrements it to -1, violating `selected_index ≥ 0`. -/
theorem turn_page_and_retain_break_invariant :
    pagInvariant 7 ["a", "b", "c", "d", "e", "f", "g", "h"]
      { page := { value := 1 }, selected := 6 } ∧
    ¬ pagInvariant 7 ["a", "b", "c", "d", "e", "f", "g", "h"]
      (UserInterface.turn_page { page := { value := 1 }, selected := 6 } 7
        ["a", "b", "c", "d", "e", "f", "g", "h"] 1) ∧
    pagInvariant 7 ["a"] { page := { value := 1 }, selected := 0 } ∧
    (UserInterface.retain_selected { page := { value := 1 }, selected := 0 } 7
        ["a"]).selected = -1 ∧
    ¬ pagInvariant 7 ["a"]
      (UserInterface.retain_selected { page := { value := 1 }, selected := 0 }
        7 ["a"]) := by
  refine ⟨by decide, by decide, by decide, by decide, by decide⟩

/-- C5 (amended): from a state satisfying the invariant on a non-empty
view, the reset on view/query change (page 1, cursor 0) preserves the full
invariant, and so does `move_selected`; `turn_page` keeps the page number
in `[1, total_pages]` and leaves the cursor untouched (so
`selected_index ≥ 0` survives but `selected < page size` can fail on a
shorter destination page, as the counterexample shows); `retain_selected`
keeps the page and preserves the full invariant when the current page has
at least two entries, while on a one-entry page (where a valid cursor
necessarily sits on the last row) it sets the cursor to -1, as the
counterexample shows. -/
theorem pagination_ops_preserve_bounds (k : Nat) (cmds : List String)
    (ui : UserInterface) (hk : 0 < k) (hne : cmds ≠ [])
    (hinv : pagInvariant k cmds ui) :
    pagInvariant k cmds (resetPagination ui) ∧
    (∀ d : Int, 1 ≤ (ui.turn_page k cmds d).page.value ∧
      (ui.turn_page k cmds d).page.value ≤ totalPages k cmds ∧
      (ui.turn_page k cmds d).selected = ui.selected) ∧
    (∀ d : Int, pagInvariant k cmds (ui.move_selected k cmds d)) ∧
    ((ui.retain_selected k cmds).page = ui.page ∧
      (2 ≤ ui.page.size k cmds →
        pagInvariant k cmds (ui.retain_selected k cmds)) ∧
      (ui.page.size k cmds = 1 →
        (ui.retain_selected k cmds).selected = -1)) := by
  obtain ⟨h1, h2, h3, h4⟩ := hinv
  have hS0 : ui.page.size k cmds ≠ 0 := by omega
  have hreset : pagInvariant k cmds (resetPagination ui) := by
    rw [pagInvariant]
    have hp := totalPages_pos k hk cmds hne
    have hsz := page_size_pos k cmds (resetPagination ui).page
      (le_refl 1) hp
    exact ⟨le_refl 1, hp, le_refl 0, hsz⟩
  refine ⟨hreset, fun d => turn_page_bounds ui k cmds d hk hne,
    fun d => ?_, ?_, ?_, ?_⟩
  · rw [pagInvariant, move_selected_unfold, if_neg hS0]
    by_cases hc1 : d = 1 ∧ (ui.selected + d) % ui.page.size k cmds = 0
    · rw [if_pos hc1]
      have hb := turn_page_bounds
        { ui with selected := (ui.selected + d) % ui.page.size k cmds }
        k cmds 1 hk hne
      have hXsel : ({ ui with selected :=
          (ui.selected + d) % ui.page.size k cmds } :
          UserInterface).selected =
          (ui.selected + d) % ui.page.size k cmds := rfl
      have hsz := page_size_pos k cmds
        (UserInterface.turn_page
          { ui with selected := (ui.selected + d) % ui.page.size k cmds }
          k cmds 1).page hb.1 hb.2.1
      refine ⟨hb.1, hb.2.1, ?_, ?_⟩
      · rw [hb.2.2, hXsel, hc1.2]
      · rw [hb.2.2, hXsel, hc1.2]
        exact hsz
    · by_cases hc2 : d = -1 ∧ (ui.selected + d) % ui.page.size k cmds =
          ui.page.size k cmds - 1
      · rw [if_neg hc1, if_pos hc2]
        have hb := turn_page_bounds
          { ui with selected := (ui.selected + d) % ui.page.size k cmds }
          k cmds (-1) hk hne
        have hsz := page_size_pos k cmds
          (UserInterface.turn_page
            { ui with selected := (ui.selected + d) % ui.page.size k cmds }
            k cmds (-1)).page hb.1 hb.2.1
        refine ⟨hb.1, hb.2.1, ?_, ?_⟩
        · exact Int.le_sub_one_iff.mpr hsz
        · exact Int.sub_one_lt_iff.mpr (le_refl _)
      · rw [if_neg hc1, if_neg hc2]
        refine ⟨h1, h2, ?_, ?_⟩
        · exact Int.emod_nonneg _ hS0
        · exact Int.emod_lt_of_pos _ (by omega)
  · rw [retain_selected_unfold]
    split_ifs <;> rfl
  · intro hge
    rw [pagInvariant, retain_selected_unfold]
    split_ifs with hr
    · refine ⟨h1, h2, ?_, ?_⟩
      · show 0 ≤ ui.selected - 1
        omega
      · show ui.selected - 1 < Page.size ui.page k cmds
        omega
    · exact ⟨h1, h2, h3, h4⟩
  · intro hone
    rw [retain_selected_unfold, if_pos (by omega)]
    show ui.selected - 1 = -1
    omega

/-- Witness for C5 (amended): 8 entries, page size 7, valid start state
(page 1, cursor 3); the view/query-change reset and moving down keep the
invariant, and retain_selected keeps the page and the invariant (the
current page holds 7 ≥ 2 entries). -/
theorem pagination_ops_preserve_bounds_witness :
    pagInvariant 7 ["a", "b", "c", "d", "e", "f", "g", "h"]
      { page := { value := 1 }, selected := 3 } ∧
    pagInvariant 7 ["a", "b", "c", "d", "e", "f", "g", "h"]
      (resetPagination { page := { value := 1 }, selected := 3 }) ∧
    pagInvariant 7 ["a", "b", "c", "d", "e", "f", "g", "h"]
      (UserInterface.move_selected { page := { value := 1 }, selected := 3 } 7
        ["a", "b", "c", "d", "e", "f", "g", "h"] 1) ∧
    (UserInterface.retain_selected { page := { value := 1 }, selected := 3 } 7
        ["a", "b", "c", "d", "e", "f", "g", "h"]).page = { value := 1 } ∧
    pagInvariant 7 ["a", "b", "c", "d", "e", "f", "g", "h"]
      (UserInterface.retain_selected { page := { value := 1 }, selected := 3 }
        7 ["a", "b", "c", "d", "e", "f", "g", "h"]) := by
  have h := pagination_ops_preserve_bounds 7
    ["a", "b", "c", "d", "e", "f", "g", "h"]
    { page := { value := 1 }, selected := 3 } (by decide) (by decide)
    (by decide)
  exact ⟨by decide, h.1, h.2.2.1 1, h.2.2.2.1, h.2.2.2.2.1 (by decide)⟩
